import Mathlib

/-! Shallow embedding of the MCP (tool-provider protocol) client/manager core of
the `gotha/bitca` repository (Go), together with proofs of its specified
properties.  The embedded code lives in `src/mcp/`:

* `client.go`   — the process (stdio) connection `Client`,
* `http_client.go` — the `HTTPClient` connection,
* `config.go` / `config_test.go` — `LoadMCPConfig`,
* `tools.go`    — the `Manager` (LoadFromConfig / ExecuteTool routing).

I/O is made explicit: the bytes a subprocess writes on stdout become a list of
inbound lines, an HTTP round trip becomes an explicit exchange outcome, and
the result of spawning/initialising a configured server becomes a stage
outcome.  Machine integers (`int64` request counters) are modelled as `Int`
with explicit two's-complement wrapping.
-/

namespace Bitca

/-- Arguments of a tool call (`map[string]interface{}` in Go); the values are
never inspected by the code under study, so they are modelled as strings. -/
abbrev Args := List (String × String)

/-- Structure JSONRPCError from client.go: code and message of a JSON-RPC 2.0 error. -/
structure JSONRPCError where
  code : Int
  message : String
  deriving DecidableEq

/-- Structure JSONRPCResponse from client.go.  Field result models the
raw json.RawMessage payload (none = absent/nil), and error the optional
error member.  A Go json.Unmarshal into this struct leaves `ID` at `0` when the
object carries no id. -/
structure JSONRPCResponse where
  jsonrpc : String
  id : Int
  result : Option String
  error : Option JSONRPCError
  deriving DecidableEq

/-- Structure MCPTool from client.go (the inputSchema is opaque to every property
studied here and is modelled as a raw string). -/
structure MCPTool where
  name : String
  description : String
  inputSchema : String
  deriving DecidableEq

/-- One inbound line on a process connection's stdout, as seen by the scan
loop in `Client.sendRequest` after `ReadBytes('\n')`:

* text s — a line whose bytes do not unmarshal as a JSONRPCResponse
  (this covers blank lines, lines not starting with `'{'`, and lines that
  fail json.Unmarshal);
* json r — a line that unmarshals as the response object r (such a line
  is non-blank and starts with a brace after trimming). -/
inductive ScanLine where
  | text (s : String)
  | json (r : JSONRPCResponse)
  deriving DecidableEq

/-- Errors a Client.sendRequest call can end in (client.go lines 131-183). -/
inductive SendError where
  | marshalFail
  | writeFail
  | readFail
  | rpcError (code : Int) (message : String)
  | noResponse (attempts : Nat)
  deriving DecidableEq

namespace Client

/-- The fixed attempt cap of the scan loop (maxAttempts = 50 in
client.go line 142, "Prevent infinite loops"). -/
def maxAttempts : Nat := 50

/-- What the scan loop does with one inbound line, given the issued request
id (client.go lines 149-180): skip blank lines, skip lines not starting with
a brace, skip lines that fail to unmarshal, skip notifications
(ID = 0 and Result = nil and Error = nil), and on a matching id either
fail with the carried error or accept the response; an object with a
different id is skipped. -/
inductive StepResult where
  | skip
  | done (r : JSONRPCResponse)
  | fail (code : Int) (message : String)
  deriving DecidableEq

/-- One iteration body of the scan loop in Client.sendRequest. -/
def processLine (id : Int) : ScanLine → StepResult
  | .text s =>
      let t := s.trim
      if t.isEmpty then .skip
      else if t.front ≠ '{' then .skip
      else .skip
  | .json r =>
      if r.id = 0 ∧ r.result = none ∧ r.error = none then .skip
      else if r.id = id then
        match r.error with
        | some e => .fail e.code e.message
        | none => .done r
      else .skip

/-- The scan loop of Client.sendRequest (client.go lines 141-183): reads
lines one at a time, up to the given number of attempts; an exhausted stream
is a read failure, an exhausted attempt budget reports maxAttempts attempts. -/
def scanLoop (id : Int) : Nat → List ScanLine → Except SendError JSONRPCResponse
  | 0, _ => .error (.noResponse maxAttempts)
  | _ + 1, [] => .error .readFail
  | fuel + 1, l :: rest =>
      match processLine id l with
      | .skip => scanLoop id fuel rest
      | .done r => .ok r
      | .fail c m => .error (.rpcError c m)

/-- Reading the response for request id from the inbound line stream:
the scan loop run with the fixed attempt cap. -/
def readResponse (id : Int) (lines : List ScanLine) : Except SendError JSONRPCResponse :=
  scanLoop id maxAttempts lines

end Client

/-- Wrap of an integer into the int64 range (two's complement), as performed
by the atomic.AddInt64 arithmetic in Go. -/
def wrap64 (x : Int) : Int := (x + 2 ^ 63) % 2 ^ 64 - 2 ^ 63

/-- The next request identifier: atomic.AddInt64 by one on the counter
(client.go line 122, http_client.go line 48). -/
def nextRequestID (x : Int) : Int := wrap64 (x + 1)

/-- Mutable state of a process Client relevant to the embedded operations:
the requestID counter and the cached tools list (client.go lines 62-70). -/
structure ClientState where
  requestID : Int
  tools : List MCPTool

namespace Client

/-- Function Client.sendRequest (client.go lines 118-184) with its I/O made
explicit: writeOk is the outcome of marshalling and writing the request line, and
lines is the stream of inbound stdout lines.  The request id is issued
(and the counter advanced) before any failure can occur. -/
def sendRequest (st : ClientState) (writeOk : Bool) (lines : List ScanLine) :
    Except SendError JSONRPCResponse × ClientState :=
  let id := nextRequestID st.requestID
  let st' : ClientState := { st with requestID := id }
  if writeOk then (readResponse id lines, st')
  else (.error .writeFail, st')

/-- The request ids issued by a sequence of sendRequest calls, one entry
per call (each call's write outcome and inbound stream are arbitrary). -/
def runIDs (st : ClientState) : List (Bool × List ScanLine) → List Int
  | [] => []
  | (w, ls) :: rest =>
      let (_, st') := sendRequest st w ls
      st'.requestID :: runIDs st' rest

end Client

end Bitca

namespace Bitca

/-- Mutable state of an HTTPClient relevant to the embedded operations
(http_client.go lines 13-20): the requestID counter and the cached tools. -/
structure HTTPClientState where
  requestID : Int
  tools : List MCPTool

/-- Outcome of one HTTP round trip as seen by HTTPClient.sendRequest
(http_client.go lines 69-95): the request may fail on the wire, come back
with a non-200 status, have an unreadable or unparseable body, or carry one
JSON-RPC response object.  The body is whatever the server chose to send and
is independent of the issued request id. -/
inductive HTTPExchange where
  | doFail (msg : String)
  | non200 (status : Nat) (body : String)
  | readBodyFail
  | unmarshalFail
  | ok (r : JSONRPCResponse)

namespace HTTPClient

/-- Function HTTPClient.sendRequest (http_client.go lines 47-102): issue the
next id, POST, and return the decoded body; a carried error member fails the
call, otherwise the body's response object is returned as is. -/
def sendRequest (st : HTTPClientState) (ex : HTTPExchange) :
    Except String JSONRPCResponse × HTTPClientState :=
  let st' : HTTPClientState := { st with requestID := nextRequestID st.requestID }
  match ex with
  | .doFail m => (.error ("HTTP request failed: " ++ m), st')
  | .non200 code body => (.error ("HTTP error " ++ toString code ++ ": " ++ body), st')
  | .readBodyFail => (.error "failed to read response", st')
  | .unmarshalFail => (.error "failed to unmarshal response", st')
  | .ok r =>
      match r.error with
      | some e => (.error ("RPC error " ++ toString e.code ++ ": " ++ e.message), st')
      | none => (.ok r, st')

/-- The request ids issued by a sequence of HTTPClient.sendRequest calls,
one entry per call (each call's exchange outcome is arbitrary). -/
def runIDs (st : HTTPClientState) : List HTTPExchange → List Int
  | [] => []
  | ex :: rest =>
      let (_, st') := sendRequest st ex
      st'.requestID :: runIDs st' rest

end HTTPClient

namespace Client

/-- The classes of inbound line that claim C7 lists as skippable: raw text
lines (blank, not brace-led, or unparseable) and notification-shaped objects
(no id, no result, no error). -/
def NoiseLine : ScanLine → Prop
  | .text _ => True
  | .json r => r.id = 0 ∧ r.result = none ∧ r.error = none

instance : DecidablePred NoiseLine := fun l =>
  match l with
  | .text _ => isTrue trivial
  | .json r => inferInstanceAs (Decidable (r.id = 0 ∧ r.result = none ∧ r.error = none))

end Client

namespace Client

/-- Rendering of a send-level failure as the error message Go would carry
(the exact text only matters up to being an error). -/
def sendErrString : SendError → String
  | .marshalFail => "failed to marshal request"
  | .writeFail => "failed to write request"
  | .readFail => "failed to read response"
  | .rpcError c m => "RPC error " ++ toString c ++ ": " ++ m
  | .noResponse n => "no response received after " ++ toString n ++ " attempts"

/-- Function Client.ListTools (client.go lines 206-219): send tools/list,
parse the result payload, and cache the parsed list.  The parameter decode
is the behaviour of json.Unmarshal into MCPToolsListResult on the opaque raw
payload (none = parse failure; unmarshalling a nil payload always fails). -/
def ListTools (decode : String → Option (List MCPTool)) (st : ClientState)
    (writeOk : Bool) (lines : List ScanLine) :
    Except String (List MCPTool) × ClientState :=
  let res := sendRequest st writeOk lines
  match res.1 with
  | .error e => (.error ("tools/list failed: " ++ sendErrString e), res.2)
  | .ok resp =>
      match resp.result with
      | none => (.error "failed to parse tools list", res.2)
      | some raw =>
          match decode raw with
          | none => (.error "failed to parse tools list", res.2)
          | some ts => (.ok ts, { res.2 with tools := ts })

/-- Function Client.Tools (client.go lines 113-115): the cached tools list. -/
def Tools (st : ClientState) : List MCPTool := st.tools

end Client

namespace HTTPClient

/-- Function HTTPClient.ListTools (http_client.go lines 124-137): identical
flow to the process connection's ListTools over the HTTP transport. -/
def ListTools (decode : String → Option (List MCPTool)) (st : HTTPClientState)
    (ex : HTTPExchange) : Except String (List MCPTool) × HTTPClientState :=
  let res := sendRequest st ex
  match res.1 with
  | .error e => (.error ("tools/list failed: " ++ e), res.2)
  | .ok resp =>
      match resp.result with
      | none => (.error "failed to parse tools list", res.2)
      | some raw =>
          match decode raw with
          | none => (.error "failed to parse tools list", res.2)
          | some ts => (.ok ts, { res.2 with tools := ts })

/-- Function HTTPClient.Tools (http_client.go lines 42-44): the cached list. -/
def Tools (st : HTTPClientState) : List MCPTool := st.tools

end HTTPClient

/-- Structure MCPServerConfig from config.go lines 125-132. -/
structure MCPServerConfig where
  command : String
  args : List String
  env : List (String × String)
  type : String
  url : String
  description : String
  deriving DecidableEq

/-- Function IsStdio from config.go lines 135-137. -/
def MCPServerConfig.IsStdio (c : MCPServerConfig) : Bool :=
  c.type = "" || c.type = "stdio"

/-- Function IsSSE from config.go lines 140-142. -/
def MCPServerConfig.IsSSE (c : MCPServerConfig) : Bool :=
  c.type = "sse"

/-- Function IsHTTP from config.go lines 145-147. -/
def MCPServerConfig.IsHTTP (c : MCPServerConfig) : Bool :=
  c.type = "http"

/-- A live connection as the Manager sees it through the MCPClient interface
(tools.go lines 12-19): its Name and its CallTool behaviour. -/
structure ClientModel where
  name : String
  callToolFn : String → Args → Except String String

/-- Outcome of driving one configured server through construction (NewClient
or NewHTTPClient), Initialize, and ListTools — the three fallible stages of
the loop body in Manager.LoadFromConfig (tools.go lines 42-81).  A ready
server carries the connection handle and the tools its ListTools returned. -/
inductive StageOutcome where
  | constructFail (msg : String)
  | initFail (msg : String)
  | listFail (msg : String)
  | ready (client : ClientModel) (tools : List MCPTool)

/-- One configured server as the Manager's loading loop sees it: its name,
its configuration, and the outcome of its startup stages. -/
abbrev ServerEntry := String × MCPServerConfig × StageOutcome

/-- Lookup in a Go-map modelled as an association list with unique keys. -/
def mapLookup {α : Type} : List (String × α) → String → Option α
  | [], _ => none
  | (k, v) :: rest, key => if k = key then some v else mapLookup rest key

/-- Go-map assignment: replace the existing entry for the key in place, or
append a fresh one. -/
def mapInsert {α : Type} : List (String × α) → String → α → List (String × α)
  | [], key, v => [(key, v)]
  | (k, v') :: rest, key, v =>
      if k = key then (key, v) :: rest else (k, v') :: mapInsert rest key v

/-- The Manager's two maps (tools.go lines 22-25): the registered client set
and the tool-name-to-client routing table. -/
structure ManagerState where
  clients : List (String × ClientModel)
  toolToClient : List (String × ClientModel)

namespace Manager

/-- The inner loop of LoadFromConfig (tools.go lines 76-78): map each
discovered tool name to its client. -/
def insertTools (c : ClientModel) (tools : List MCPTool)
    (t : List (String × ClientModel)) : List (String × ClientModel) :=
  tools.foldl (fun acc tool => mapInsert acc tool.name c) t

/-- The per-server pipeline of LoadFromConfig after transport selection
(tools.go lines 55-81): a construction failure only skips the server, an
initialize or list failure closes the connection and skips the server, and
a fully started server is registered and its tools merged into the routing
table. -/
def processServer (m : ManagerState) (closed : List String) (name : String) :
    StageOutcome → ManagerState × List String
  | .constructFail _ => (m, closed)
  | .initFail _ => (m, closed ++ [name])
  | .listFail _ => (m, closed ++ [name])
  | .ready c tools =>
      ({ clients := mapInsert m.clients name c,
         toolToClient := insertTools c tools m.toolToClient }, closed)

/-- One iteration of the loading loop (tools.go lines 42-81): pick the
connection variant by transport type — stdio, or SSE/HTTP — and run the
pipeline; an unsupported type is skipped with a warning.  The accumulator
carries the manager state and the names whose connection was closed. -/
def loadStep (acc : ManagerState × List String) (e : ServerEntry) :
    ManagerState × List String :=
  if e.2.1.IsStdio then processServer acc.1 acc.2 e.1 e.2.2
  else if e.2.1.IsSSE || e.2.1.IsHTTP then processServer acc.1 acc.2 e.1 e.2.2
  else acc

/-- The loading loop of Manager.LoadFromConfig over the configured servers,
starting from the empty manager of NewManager (tools.go lines 28-33). -/
def loadServers (specs : List ServerEntry) : ManagerState × List String :=
  specs.foldl loadStep (⟨[], []⟩, [])

/-- Function Manager.LoadFromConfig (tools.go lines 36-84): a config load
failure is wrapped and returned; otherwise the loop runs and the function
returns nil. -/
def LoadFromConfig (cfg : Except String (List ServerEntry)) :
    Except String (ManagerState × List String) :=
  match cfg with
  | .error e => .error ("failed to load MCP config: " ++ e)
  | .ok specs => .ok (loadServers specs)

/-- Function Manager.ExecuteTool (tools.go lines 119-126), with the CallTool
delegations it performs recorded alongside the returned value. -/
def ExecuteTool (m : ManagerState) (name : String) (args : Args) :
    Except String String × List (String × String × Args) :=
  match mapLookup m.toolToClient name with
  | none => (.error ("unknown MCP tool: " ++ name), [])
  | some c => (c.callToolFn name args, [(c.name, name, args)])

/-- A transport type the loading loop accepts (the condition guarding the
pipeline in tools.go lines 46-53). -/
def supported (cfg : MCPServerConfig) : Bool :=
  cfg.IsStdio || cfg.IsSSE || cfg.IsHTTP

/-- The client-set entry a server contributes: present exactly for a
supported, fully started server. -/
def readyEntry : ServerEntry → Option (String × ClientModel)
  | (n, cfg, .ready c _) => if supported cfg then some (n, c) else none
  | _ => none

/-- The name a server contributes to the closed list: present exactly for a
supported server failing at initialize or at tools/list (tools.go lines
60-71); a server whose construction fails has no connection to close. -/
def closedName : ServerEntry → Option String
  | (n, cfg, .initFail _) => if supported cfg then some n else none
  | (n, cfg, .listFail _) => if supported cfg then some n else none
  | _ => none

end Manager

/-- The parse outcome of an existing config file's bytes, as json.Unmarshal
into MCPConfig sees them (config.go lines 192-195): malformed JSON, or a
valid document whose mcpServers member is absent/null (a nil Go map,
modelled as none) or a map of server entries. -/
inductive ConfigDoc where
  | malformed (msg : String)
  | valid (servers : Option (List (String × MCPServerConfig)))

/-- What the filesystem answers when LoadMCPConfig reads the path
(config.go lines 183-190). -/
inductive FileData where
  | notExist
  | readErr (msg : String)
  | content (doc : ConfigDoc)

/-- Structure MCPConfig from config.go lines 150-152; none models a nil map. -/
structure MCPConfig where
  mcpServers : Option (List (String × MCPServerConfig))

/-- Function LoadMCPConfig (config.go lines 173-202) over the filesystem
answer for the resolved path: a missing file yields an empty (non-nil)
server map and no error, any other read failure or a parse failure is
returned as an error with no config value, and a parsed document with a nil
map gets the map replaced by an empty one. -/
def LoadMCPConfig : FileData → Except String MCPConfig
  | .notExist => .ok ⟨some []⟩
  | .readErr m => .error m
  | .content (.malformed m) => .error m
  | .content (.valid none) => .ok ⟨some []⟩
  | .content (.valid (some l)) => .ok ⟨some l⟩

/-- A concrete connection handle used by the witnesses. -/
def demoClient : ClientModel :=
  ⟨"srv", fun n _ => .ok ("ran " ++ n)⟩

/-- A second concrete connection handle used by the witnesses. -/
def demoClientB : ClientModel :=
  ⟨"srvB", fun n _ => .ok ("B ran " ++ n)⟩

/-- A concrete stdio server configuration used by the witnesses. -/
def demoCfg : MCPServerConfig :=
  ⟨"/usr/bin/test-mcp", [], [], "", "", ""⟩

/-- A concrete manager state used by the witnesses. -/
def demoManager : ManagerState :=
  ⟨[("srv", demoClient)], [("echo", demoClient)]⟩

/-- A concrete server list used by the witnesses: one ready server, one
failing initialize, one failing construction. -/
def demoSpecs : List ServerEntry :=
  [("a", demoCfg, .ready demoClient [⟨"echo", "", ""⟩]),
    ("b", demoCfg, .initFail "init broke"),
    ("c", demoCfg, .constructFail "spawn broke")]


namespace Client

/-- A raw text line (blank, not brace-led, or unparseable) is always skipped. -/
theorem processLine_text (id : Int) (s : String) :
    processLine id (.text s) = .skip := by
  simp [processLine]

/-- An object whose id differs from the issued id is skipped, whatever else
it carries. -/
theorem processLine_mismatch {id : Int} {r : JSONRPCResponse} (h : r.id ≠ id) :
    processLine id (.json r) = .skip := by
  simp only [processLine]
  by_cases hn : r.id = 0 ∧ r.result = none ∧ r.error = none
  · rw [if_pos hn]
  · rw [if_neg hn, if_neg h]

/-- An object with the issued id and no error member is accepted. -/
theorem processLine_match_done {id : Int} {resp : JSONRPCResponse}
    (hid : resp.id = id) (herr : resp.error = none) (hz : id ≠ 0) :
    processLine id (.json resp) = .done resp := by
  simp only [processLine]
  have hn : ¬(resp.id = 0 ∧ resp.result = none ∧ resp.error = none) := by
    rintro ⟨h0, -, -⟩
    exact hz (by rw [← hid, h0])
  rw [if_neg hn, if_pos hid, herr]

/-- An object with the issued id and an error member fails the call with the
error's code and message. -/
theorem processLine_match_fail {id : Int} {resp : JSONRPCResponse} {e : JSONRPCError}
    (hid : resp.id = id) (herr : resp.error = some e) :
    processLine id (.json resp) = .fail e.code e.message := by
  simp only [processLine]
  have hn : ¬(resp.id = 0 ∧ resp.result = none ∧ resp.error = none) := by
    rintro ⟨-, -, h3⟩
    rw [herr] at h3
    cases h3
  rw [if_neg hn, if_pos hid, herr]

/-- Inversion: a line the loop accepts carries the issued id and no error. -/
theorem processLine_done {id : Int} {l : ScanLine} {r : JSONRPCResponse}
    (h : processLine id l = .done r) : r.id = id ∧ r.error = none := by
  cases l with
  | text s => rw [processLine_text] at h; cases h
  | json q =>
      simp only [processLine] at h
      by_cases hn : q.id = 0 ∧ q.result = none ∧ q.error = none
      · rw [if_pos hn] at h; cases h
      · rw [if_neg hn] at h
        by_cases hid : q.id = id
        · rw [if_pos hid] at h
          cases he : q.error with
          | some e => rw [he] at h; cases h
          | none =>
              rw [he] at h
              injection h with h'
              subst h'
              exact ⟨hid, he⟩
        · rw [if_neg hid] at h; cases h

/-- One skipped line consumes one unit of the attempt budget. -/
theorem scanLoop_cons_skip {id : Int} {l : ScanLine} {n : Nat} {rest : List ScanLine}
    (h : processLine id l = .skip) :
    scanLoop id (n + 1) (l :: rest) = scanLoop id n rest := by
  rw [scanLoop, h]

/-- One accepted line ends the scan with that response. -/
theorem scanLoop_cons_done {id : Int} {l : ScanLine} {n : Nat} {rest : List ScanLine}
    {r : JSONRPCResponse} (h : processLine id l = .done r) :
    scanLoop id (n + 1) (l :: rest) = .ok r := by
  rw [scanLoop, h]

/-- One error line (with the issued id) ends the scan with that RPC error. -/
theorem scanLoop_cons_fail {id : Int} {l : ScanLine} {n : Nat} {rest : List ScanLine}
    {c : Int} {m : String} (h : processLine id l = .fail c m) :
    scanLoop id (n + 1) (l :: rest) = .error (.rpcError c m) := by
  rw [scanLoop, h]

/-- Skipped lines are consumed without affecting the remaining scan (one
unit of the attempt budget per line). -/
theorem scanLoop_skips {id : Int} :
    ∀ (noise : List ScanLine) (fuel : Nat) (rest : List ScanLine),
      (∀ l ∈ noise, processLine id l = .skip) →
      scanLoop id (noise.length + fuel) (noise ++ rest) = scanLoop id fuel rest := by
  intro noise
  induction noise with
  | nil => intro fuel rest _; simp
  | cons l noise ih =>
      intro fuel rest h
      have hl : processLine id l = .skip := h l (by simp)
      have hlen : (l :: noise).length + fuel = (noise.length + fuel) + 1 := by
        simp only [List.length_cons]; omega
      rw [hlen, List.cons_append, scanLoop_cons_skip hl]
      exact ih fuel rest (fun x hx => h x (by simp [hx]))

/-- The scan never looks past its attempt budget: only the first fuel lines
of the stream matter. -/
theorem scanLoop_take (id : Int) :
    ∀ (fuel : Nat) (lines : List ScanLine),
      scanLoop id fuel lines = scanLoop id fuel (lines.take fuel) := by
  intro fuel
  induction fuel with
  | zero => intro lines; rfl
  | succ n ih =>
      intro lines
      cases lines with
      | nil => rfl
      | cons l rest =>
          rw [List.take_succ_cons]
          cases hp : processLine id l with
          | skip => rw [scanLoop_cons_skip hp, scanLoop_cons_skip hp]; exact ih rest
          | done r => rw [scanLoop_cons_done hp, scanLoop_cons_done hp]
          | fail c m => rw [scanLoop_cons_fail hp, scanLoop_cons_fail hp]

/-- When every line within the budget is skipped, the budget runs out and
the loop reports the correlation-exhausted error. -/
theorem scanLoop_exhaust (id : Int) :
    ∀ (fuel : Nat) (lines : List ScanLine), fuel ≤ lines.length →
      (∀ l ∈ lines.take fuel, processLine id l = .skip) →
      scanLoop id fuel lines = .error (.noResponse maxAttempts) := by
  intro fuel
  induction fuel with
  | zero => intro lines _ _; rfl
  | succ n ih =>
      intro lines hlen hskip
      cases lines with
      | nil => simp at hlen
      | cons l rest =>
          have hl : processLine id l = .skip := hskip l (by simp)
          rw [scanLoop_cons_skip hl]
          exact ih rest (by simpa using hlen)
            (fun x hx => hskip x (by rw [List.take_succ_cons]; exact List.mem_cons_of_mem l hx))

/-- Any response the scan loop returns carries the issued request id. -/
theorem scanLoop_ok_id {id : Int} {fuel : Nat} {lines : List ScanLine}
    {r : JSONRPCResponse} (h : scanLoop id fuel lines = .ok r) : r.id = id := by
  induction fuel generalizing lines with
  | zero => cases h
  | succ n ih =>
      cases lines with
      | nil => cases h
      | cons l rest =>
          cases hp : processLine id l with
          | skip => rw [scanLoop_cons_skip hp] at h; exact ih h
          | done q =>
              rw [scanLoop_cons_done hp] at h
              injection h with h'
              subst h'
              exact (processLine_done hp).1
          | fail c m => rw [scanLoop_cons_fail hp] at h; cases h

/-- Every noise line is skipped by the loop, whatever the issued id is. -/
theorem noise_skip {id : Int} {l : ScanLine} (h : NoiseLine l) :
    processLine id l = .skip := by
  cases l with
  | text s => exact processLine_text id s
  | json r =>
      simp only [NoiseLine] at h
      simp only [processLine]
      rw [if_pos h]

end Client

end Bitca

namespace Bitca

/-- C7: during a process connection's response scan, every inbound line that
is blank, does not begin with a brace, fails to parse as JSON, or parses as a
notification (no id, no result, no error) is skipped without error and does
not consume the awaited response: a matching-id response arriving after any
number of such interleaved lines within the attempt cap is still returned as
the call's result. -/
theorem claim_C7 (id : Int) (noise rest : List ScanLine) (resp : JSONRPCResponse)
    (hnoise : ∀ l ∈ noise, Client.NoiseLine l)
    (hcap : noise.length + 1 ≤ Client.maxAttempts)
    (hid : resp.id = id) (herr : resp.error = none) (hz : id ≠ 0) :
    Client.readResponse id (noise ++ ScanLine.json resp :: rest) = .ok resp := by
  unfold Client.readResponse
  have hskip : ∀ l ∈ noise, Client.processLine id l = .skip :=
    fun l hl => Client.noise_skip (hnoise l hl)
  obtain ⟨k, hk⟩ : ∃ k, Client.maxAttempts - noise.length = k + 1 :=
    ⟨Client.maxAttempts - noise.length - 1, by omega⟩
  have hsplit : Client.maxAttempts = noise.length + (k + 1) := by omega
  rw [hsplit, Client.scanLoop_skips noise (k + 1) _ hskip,
    Client.scanLoop_cons_done (Client.processLine_match_done hid herr hz)]

/-- Witness for C7: two raw text lines and one notification precede the
matching response, which is still returned. -/
theorem claim_C7_witness :
    Client.readResponse 1
      [ScanLine.text "", ScanLine.text "server log", ScanLine.json ⟨"2.0", 0, none, none⟩,
        ScanLine.json ⟨"2.0", 1, some "payload", none⟩] =
      .ok ⟨"2.0", 1, some "payload", none⟩ :=
  claim_C7 1
    [ScanLine.text "", ScanLine.text "server log", ScanLine.json ⟨"2.0", 0, none, none⟩]
    [] ⟨"2.0", 1, some "payload", none⟩ (by decide) (by decide) rfl rfl (by decide)

/-- C8: a process connection's response scan reads at most the fixed cap of
50 inbound lines per call, and if every line within the cap is skipped
without a matching response the call fails with the correlation-exhausted
error naming the attempt count. -/
theorem claim_C8 (id : Int) (lines : List ScanLine) :
    Client.readResponse id lines =
      Client.readResponse id (lines.take Client.maxAttempts) ∧
    (Client.maxAttempts ≤ lines.length →
      (∀ l ∈ lines.take Client.maxAttempts, Client.processLine id l = .skip) →
      Client.readResponse id lines = .error (.noResponse Client.maxAttempts)) := by
  constructor
  · unfold Client.readResponse
    rw [Client.scanLoop_take id Client.maxAttempts lines,
      Client.scanLoop_take id Client.maxAttempts (lines.take Client.maxAttempts),
      List.take_take]
  · intro h1 h2
    exact Client.scanLoop_exhaust id Client.maxAttempts lines h1 h2

/-- Witness for C8: sixty notification lines exhaust the 50-attempt budget
and the call fails naming 50 attempts. -/
theorem claim_C8_witness :
    Client.readResponse 1 (List.replicate 60 (ScanLine.json ⟨"", 0, none, none⟩)) =
      .error (.noResponse 50) :=
  (claim_C8 1 (List.replicate 60 (ScanLine.json ⟨"", 0, none, none⟩))).2
    (by decide) (by decide)

/-- C4 as stated is false on the code: an inbound object carrying an error
member but a different id than the issued request is skipped, not surfaced;
here the call succeeds with the later matching response instead of failing
with the carried error code and message. -/
theorem claim_C4_counterexample :
    Client.readResponse 1
        [ScanLine.json ⟨"2.0", 5, none, some ⟨-32600, "boom"⟩⟩,
          ScanLine.json ⟨"2.0", 1, some "ok", none⟩] ≠
      .error (.rpcError (-32600) "boom") ∧
    Client.readResponse 1
        [ScanLine.json ⟨"2.0", 5, none, some ⟨-32600, "boom"⟩⟩,
          ScanLine.json ⟨"2.0", 1, some "ok", none⟩] =
      .ok ⟨"2.0", 1, some "ok", none⟩ := by
  constructor
  · intro h
    rw [show Client.readResponse 1
        [ScanLine.json ⟨"2.0", 5, none, some ⟨-32600, "boom"⟩⟩,
          ScanLine.json ⟨"2.0", 1, some "ok", none⟩] =
        .ok ⟨"2.0", 1, some "ok", none⟩ from rfl] at h
    cases h
  · rfl

/-- C4 amended: an inbound JSON-RPC object carrying an error member causes
the call to fail with that error's code and message exactly when the object
bears the issued request id; error-carrying objects with any other id are
skipped. -/
theorem claim_C4 (id : Int) (noise rest : List ScanLine) (resp : JSONRPCResponse)
    (e : JSONRPCError)
    (hskip : ∀ l ∈ noise, Client.processLine id l = .skip)
    (hcap : noise.length + 1 ≤ Client.maxAttempts)
    (hid : resp.id = id) (herr : resp.error = some e) :
    Client.readResponse id (noise ++ ScanLine.json resp :: rest) =
      .error (.rpcError e.code e.message) ∧
    ∀ q : JSONRPCResponse, q.id ≠ id → Client.processLine id (.json q) = .skip := by
  constructor
  · unfold Client.readResponse
    obtain ⟨k, hk⟩ : ∃ k, Client.maxAttempts - noise.length = k + 1 :=
      ⟨Client.maxAttempts - noise.length - 1, by omega⟩
    have hsplit : Client.maxAttempts = noise.length + (k + 1) := by omega
    rw [hsplit, Client.scanLoop_skips noise (k + 1) _ hskip,
      Client.scanLoop_cons_fail (Client.processLine_match_fail hid herr)]
  · intro q hq
    exact Client.processLine_mismatch hq

/-- Witness for C4 (amended): a mismatched-id error object is skipped and
the matching-id error object fails the call with its code and message. -/
theorem claim_C4_witness :
    Client.readResponse 1
      [ScanLine.json ⟨"2.0", 7, none, some ⟨-1, "other"⟩⟩,
        ScanLine.json ⟨"2.0", 1, none, some ⟨-32600, "boom"⟩⟩] =
      .error (.rpcError (-32600) "boom") :=
  (claim_C4 1 [ScanLine.json ⟨"2.0", 7, none, some ⟨-1, "other"⟩⟩] []
    ⟨"2.0", 1, none, some ⟨-32600, "boom"⟩⟩ ⟨-32600, "boom"⟩
    (by decide) (by decide) rfl rfl).1

/-- C5 as stated is false on the code: the HTTP connection returns the single
response body as the call's result without checking its identifier, so a
response bearing id 999 is returned for the call that issued id 1. -/
theorem claim_C5_counterexample :
    (HTTPClient.sendRequest ⟨0, []⟩ (.ok ⟨"2.0", 999, some "res", none⟩)).1 =
      .ok ⟨"2.0", 999, some "res", none⟩ ∧
    (HTTPClient.sendRequest ⟨0, []⟩ (.ok ⟨"2.0", 999, some "res", none⟩)).2.requestID = 1 ∧
    (999 : Int) ≠ 1 := by
  refine ⟨rfl, ?_, by decide⟩
  decide

/-- C5 amended: on a process connection the inbound message accepted as a
call's response always carries the issued identifier; the HTTP connection
performs no identifier check and returns the single response body (when it
carries no error member) as the call's result whatever identifier it bears. -/
theorem claim_C5 :
    (∀ (id : Int) (fuel : Nat) (lines : List ScanLine) (r : JSONRPCResponse),
        Client.scanLoop id fuel lines = .ok r → r.id = id) ∧
    (∀ (st : HTTPClientState) (r : JSONRPCResponse), r.error = none →
        (HTTPClient.sendRequest st (.ok r)).1 = .ok r) := by
  constructor
  · intro id fuel lines r h
    exact Client.scanLoop_ok_id h
  · intro st r h
    simp [HTTPClient.sendRequest, h]

/-- Witness for C5 (amended): a concrete accepted scan response carries the
issued id, and a concrete HTTP body is returned as is. -/
theorem claim_C5_witness :
    (⟨"2.0", 1, some "ok", none⟩ : JSONRPCResponse).id = 1 ∧
    (HTTPClient.sendRequest ⟨0, []⟩ (.ok ⟨"2.0", 5, none, none⟩)).1 =
      .ok ⟨"2.0", 5, none, none⟩ :=
  ⟨claim_C5.1 1 50 [ScanLine.json ⟨"2.0", 1, some "ok", none⟩]
      ⟨"2.0", 1, some "ok", none⟩ rfl,
    claim_C5.2 ⟨0, []⟩ ⟨"2.0", 5, none, none⟩ rfl⟩

/-- In the int64 range the wrap is the identity. -/
theorem wrap64_eq {x : Int} (h1 : -(2 ^ 63) ≤ x) (h2 : x < 2 ^ 63) : wrap64 x = x := by
  unfold wrap64
  have e1 : (2 : Int) ^ 63 = 9223372036854775808 := by norm_num
  have e2 : (2 : Int) ^ 64 = 18446744073709551616 := by norm_num
  rw [e1] at h1 h2 ⊢
  rw [e2]
  rw [Int.emod_eq_of_lt (by omega) (by omega)]
  omega

/-- A process-connection sendRequest call advances the counter by exactly one
step and touches nothing else in the client state. -/
theorem Client.sendRequest_state (st : ClientState) (w : Bool) (ls : List ScanLine) :
    (Client.sendRequest st w ls).2 = ⟨nextRequestID st.requestID, st.tools⟩ := by
  cases w <;> rfl

/-- An HTTP sendRequest call advances the counter by exactly one step and
touches nothing else in the client state. -/
theorem HTTPClient.httpSendRequest_state (st : HTTPClientState) (ex : HTTPExchange) :
    (HTTPClient.sendRequest st ex).2 = ⟨nextRequestID st.requestID, st.tools⟩ := by
  cases ex with
  | doFail m => rfl
  | non200 c b => rfl
  | readBodyFail => rfl
  | unmarshalFail => rfl
  | ok r => cases he : r.error <;> simp [HTTPClient.sendRequest, he]

/-- Unfolding one call of the issued-id sequence (process connection). -/
theorem Client.runIDs_cons (st : ClientState) (w : Bool) (ls : List ScanLine)
    (rest : List (Bool × List ScanLine)) :
    Client.runIDs st ((w, ls) :: rest) =
      (Client.sendRequest st w ls).2.requestID ::
        Client.runIDs (Client.sendRequest st w ls).2 rest := rfl

/-- Unfolding one call of the issued-id sequence (HTTP connection). -/
theorem HTTPClient.httpRunIDs_cons (st : HTTPClientState) (ex : HTTPExchange)
    (rest : List HTTPExchange) :
    HTTPClient.runIDs st (ex :: rest) =
      (HTTPClient.sendRequest st ex).2.requestID ::
        HTTPClient.runIDs (HTTPClient.sendRequest st ex).2 rest := rfl

/-- Issued ids of a process connection starting from counter value c:
c+1, c+2, ... as long as the counter stays below the int64 wrap point. -/
theorem Client.runIDs_eq :
    ∀ (calls : List (Bool × List ScanLine)) (c : Int) (ts : List MCPTool),
      0 ≤ c → c + (calls.length : Int) ≤ 2 ^ 63 - 1 →
      Client.runIDs ⟨c, ts⟩ calls =
        (List.range calls.length).map (fun k : Nat => c + (k : Int) + 1) := by
  intro calls
  induction calls with
  | nil => intro c ts _ _; rfl
  | cons p rest ih =>
      intro c ts h0 hb
      obtain ⟨w, ls⟩ := p
      simp only [List.length_cons] at hb
      push_cast at hb
      have hid : nextRequestID c = c + 1 := by
        unfold nextRequestID
        apply wrap64_eq
        · have : (0 : Int) ≤ 2 ^ 63 := by positivity
          omega
        · have hr : (0 : Int) ≤ (rest.length : Int) := Int.natCast_nonneg _
          omega
      rw [Client.runIDs_cons, Client.sendRequest_state, hid]
      have hrest := ih (c + 1) ts (by omega) (by omega)
      rw [hrest]
      simp only [List.length_cons, List.range_succ_eq_map, List.map_cons, List.map_map,
        List.cons.injEq, Nat.cast_zero]
      constructor
      · ring
      · apply List.map_congr_left
        intro k _
        simp only [Function.comp_apply]
        push_cast
        ring

/-- Issued ids of an HTTP connection starting from counter value c:
c+1, c+2, ... as long as the counter stays below the int64 wrap point. -/
theorem HTTPClient.httpRunIDs_eq :
    ∀ (excs : List HTTPExchange) (c : Int) (ts : List MCPTool),
      0 ≤ c → c + (excs.length : Int) ≤ 2 ^ 63 - 1 →
      HTTPClient.runIDs ⟨c, ts⟩ excs =
        (List.range excs.length).map (fun k : Nat => c + (k : Int) + 1) := by
  intro excs
  induction excs with
  | nil => intro c ts _ _; rfl
  | cons ex rest ih =>
      intro c ts h0 hb
      simp only [List.length_cons] at hb
      push_cast at hb
      have hid : nextRequestID c = c + 1 := by
        unfold nextRequestID
        apply wrap64_eq
        · have : (0 : Int) ≤ 2 ^ 63 := by positivity
          omega
        · have hr : (0 : Int) ≤ (rest.length : Int) := Int.natCast_nonneg _
          omega
      rw [HTTPClient.httpRunIDs_cons, HTTPClient.httpSendRequest_state, hid]
      have hrest := ih (c + 1) ts (by omega) (by omega)
      rw [hrest]
      simp only [List.length_cons, List.range_succ_eq_map, List.map_cons, List.map_map,
        List.cons.injEq, Nat.cast_zero]
      constructor
      · ring
      · apply List.map_congr_left
        intro k _
        simp only [Function.comp_apply]
        push_cast
        ring

/-- C6: on both connection types, the request identifiers issued by
successive sendRequest invocations starting from a fresh connection are
1, 2, 3, ... — strictly increasing, never reused, starting at 1 and
incrementing by 1 per request — whatever each call's outcome is, for any
number of calls below the int64 wrap point. -/
theorem claim_C6 (calls : List (Bool × List ScanLine)) (excs : List HTTPExchange)
    (hc : (calls.length : Int) ≤ 2 ^ 63 - 1) (hx : (excs.length : Int) ≤ 2 ^ 63 - 1) :
    Client.runIDs ⟨0, []⟩ calls =
      (List.range calls.length).map (fun k : Nat => (k : Int) + 1) ∧
    HTTPClient.runIDs ⟨0, []⟩ excs =
      (List.range excs.length).map (fun k : Nat => (k : Int) + 1) := by
  constructor
  · have h := Client.runIDs_eq calls 0 [] le_rfl (by omega)
    simpa using h
  · have h := HTTPClient.httpRunIDs_eq excs 0 [] le_rfl (by omega)
    simpa using h

/-- Witness for C6: two process calls (one failing its write) and two HTTP
calls (both failing) issue ids 1 and 2. -/
theorem claim_C6_witness :
    Client.runIDs ⟨0, []⟩ [(true, []), (false, [])] = [1, 2] ∧
    HTTPClient.runIDs ⟨0, []⟩ [.readBodyFail, .unmarshalFail] = [1, 2] :=
  ⟨(claim_C6 [(true, []), (false, [])] [.readBodyFail, .unmarshalFail]
        (by norm_num) (by norm_num)).1.trans (by decide),
    (claim_C6 [(true, []), (false, [])] [.readBodyFail, .unmarshalFail]
        (by norm_num) (by norm_num)).2.trans (by decide)⟩


/-- C10: on both connection types, a failed ListTools call (transport
failure, RPC error, correlation exhaustion, or an unparseable result
payload) leaves the cached tool list observed via Tools exactly as it was
before the call; when ListTools succeeds the cache is replaced and Tools
thereafter returns precisely the returned list. -/
theorem claim_C10 (decode : String → Option (List MCPTool)) (st : ClientState)
    (hst : HTTPClientState) (writeOk : Bool) (lines : List ScanLine)
    (ex : HTTPExchange) :
    (∀ e st₂, Client.ListTools decode st writeOk lines = (.error e, st₂) →
        Client.Tools st₂ = Client.Tools st) ∧
    (∀ ts st₂, Client.ListTools decode st writeOk lines = (.ok ts, st₂) →
        Client.Tools st₂ = ts) ∧
    (∀ e st₂, HTTPClient.ListTools decode hst ex = (.error e, st₂) →
        HTTPClient.Tools st₂ = HTTPClient.Tools hst) ∧
    (∀ ts st₂, HTTPClient.ListTools decode hst ex = (.ok ts, st₂) →
        HTTPClient.Tools st₂ = ts) := by
  have hts : (Client.sendRequest st writeOk lines).2.tools = st.tools := by
    rw [Client.sendRequest_state]
  have hts' : (HTTPClient.sendRequest hst ex).2.tools = hst.tools := by
    rw [HTTPClient.httpSendRequest_state]
  refine ⟨?_, ?_, ?_, ?_⟩
  · intro e st₂ h
    simp only [Client.ListTools] at h
    cases hr : (Client.sendRequest st writeOk lines).1 with
    | error err =>
        rw [hr] at h
        injection h with h1 h2
        subst h2
        exact hts
    | ok resp =>
        rw [hr] at h
        dsimp only at h
        cases hq : resp.result with
        | none =>
            rw [hq] at h
            injection h with h1 h2
            subst h2
            exact hts
        | some raw =>
            rw [hq] at h
            dsimp only at h
            cases hd : decode raw with
            | none =>
                rw [hd] at h
                injection h with h1 h2
                subst h2
                exact hts
            | some ts =>
                rw [hd] at h
                injection h with h1 h2
                cases h1
  · intro ts st₂ h
    simp only [Client.ListTools] at h
    cases hr : (Client.sendRequest st writeOk lines).1 with
    | error err => rw [hr] at h; injection h with h1 h2; cases h1
    | ok resp =>
        rw [hr] at h
        dsimp only at h
        cases hq : resp.result with
        | none => rw [hq] at h; injection h with h1 h2; cases h1
        | some raw =>
            rw [hq] at h
            dsimp only at h
            cases hd : decode raw with
            | none => rw [hd] at h; injection h with h1 h2; cases h1
            | some ts' =>
                rw [hd] at h
                injection h with h1 h2
                injection h1 with h1
                subst h2
                exact h1
  · intro e st₂ h
    simp only [HTTPClient.ListTools] at h
    cases hr : (HTTPClient.sendRequest hst ex).1 with
    | error err =>
        rw [hr] at h
        injection h with h1 h2
        subst h2
        exact hts'
    | ok resp =>
        rw [hr] at h
        dsimp only at h
        cases hq : resp.result with
        | none =>
            rw [hq] at h
            injection h with h1 h2
            subst h2
            exact hts'
        | some raw =>
            rw [hq] at h
            dsimp only at h
            cases hd : decode raw with
            | none =>
                rw [hd] at h
                injection h with h1 h2
                subst h2
                exact hts'
            | some ts =>
                rw [hd] at h
                injection h with h1 h2
                cases h1
  · intro ts st₂ h
    simp only [HTTPClient.ListTools] at h
    cases hr : (HTTPClient.sendRequest hst ex).1 with
    | error err => rw [hr] at h; injection h with h1 h2; cases h1
    | ok resp =>
        rw [hr] at h
        dsimp only at h
        cases hq : resp.result with
        | none => rw [hq] at h; injection h with h1 h2; cases h1
        | some raw =>
            rw [hq] at h
            dsimp only at h
            cases hd : decode raw with
            | none => rw [hd] at h; injection h with h1 h2; cases h1
            | some ts' =>
                rw [hd] at h
                injection h with h1 h2
                injection h1 with h1
                subst h2
                exact h1

/-- Witness for C10: a failed call keeps the old cache, a successful call
replaces it. -/
theorem claim_C10_witness :
    Client.Tools (Client.ListTools (fun _ => some [⟨"t2", "", ""⟩]) ⟨0, [⟨"t1", "", ""⟩]⟩
        false []).2 = [⟨"t1", "", ""⟩] ∧
    HTTPClient.Tools (HTTPClient.ListTools (fun _ => some [⟨"t2", "", ""⟩])
        ⟨0, [⟨"t1", "", ""⟩]⟩ (.ok ⟨"2.0", 1, some "raw", none⟩)).2 = [⟨"t2", "", ""⟩] :=
  ⟨(claim_C10 (fun _ => some [⟨"t2", "", ""⟩]) ⟨0, [⟨"t1", "", ""⟩]⟩
        ⟨0, [⟨"t1", "", ""⟩]⟩ false [] .readBodyFail).1
      ("tools/list failed: " ++ Client.sendErrString .writeFail) _ rfl,
    (claim_C10 (fun _ => some [⟨"t2", "", ""⟩]) ⟨0, [⟨"t1", "", ""⟩]⟩
        ⟨0, [⟨"t1", "", ""⟩]⟩ false [] (.ok ⟨"2.0", 1, some "raw", none⟩)).2.2.2
      [⟨"t2", "", ""⟩] _ rfl⟩

end Bitca

namespace Bitca

/-- Lookup after a Go-map assignment: the assigned key maps to the new
value, every other key is untouched. -/
theorem mapLookup_insert {α : Type} (m : List (String × α)) (k : String) (v : α)
    (key : String) :
    mapLookup (mapInsert m k v) key = if key = k then some v else mapLookup m key := by
  induction m with
  | nil =>
      by_cases h : key = k
      · subst h; simp [mapInsert, mapLookup]
      · simp [mapInsert, mapLookup, h, Ne.symm h]
  | cons p rest ih =>
      obtain ⟨k', v'⟩ := p
      by_cases h : k' = k
      · subst h
        by_cases hk : key = k'
        · subst hk; simp [mapInsert, mapLookup]
        · simp [mapInsert, mapLookup, hk, Ne.symm hk]
      · by_cases hk : key = k
        · subst hk
          simp [mapInsert, mapLookup, h, ih]
        · by_cases hk2 : k' = key
          · simp [mapInsert, mapLookup, h, hk, hk2, ih]
          · simp [mapInsert, mapLookup, h, hk, hk2, ih]

/-- Assigning a key absent from the map appends a fresh entry at the end. -/
theorem mapInsert_of_lookup_none {α : Type} (m : List (String × α)) (k : String)
    (v : α) (h : mapLookup m k = none) : mapInsert m k v = m ++ [(k, v)] := by
  induction m with
  | nil => rfl
  | cons p rest ih =>
      obtain ⟨k', v'⟩ := p
      simp only [mapLookup] at h
      by_cases hk : k' = k
      · rw [if_pos hk] at h; cases h
      · rw [if_neg hk] at h
        simp only [mapInsert, if_neg hk, List.cons_append]
        rw [ih h]

/-- A key present after an assignment was present before or is the assigned
key. -/
theorem mapInsert_keys_mem {α : Type} (m : List (String × α)) (k : String) (v : α)
    (x : String) (hx : x ∈ (mapInsert m k v).map Prod.fst) :
    x ∈ m.map Prod.fst ∨ x = k := by
  induction m with
  | nil => simpa [mapInsert] using hx
  | cons p rest ih =>
      obtain ⟨k', v'⟩ := p
      by_cases h : k' = k
      · have heq : mapInsert ((k', v') :: rest) k v = (k, v) :: rest := by
          simp [mapInsert, h]
        rw [heq] at hx
        simp only [List.map_cons, List.mem_cons] at hx
        rcases hx with h1 | h1
        · exact Or.inr h1
        · exact Or.inl (by simp only [List.map_cons, List.mem_cons]; exact Or.inr h1)
      · have heq : mapInsert ((k', v') :: rest) k v = (k', v') :: mapInsert rest k v := by
          simp [mapInsert, h]
        rw [heq] at hx
        simp only [List.map_cons, List.mem_cons] at hx
        rcases hx with h1 | h1
        · exact Or.inl (by simp only [List.map_cons, List.mem_cons]; exact Or.inl h1)
        · rcases ih h1 with h2 | h2
          · exact Or.inl (by simp only [List.map_cons, List.mem_cons]; exact Or.inr h2)
          · exact Or.inr h2

/-- A Go-map assignment keeps the keys without duplicates. -/
theorem mapInsert_keys_nodup {α : Type} (m : List (String × α)) (k : String) (v : α)
    (h : (m.map Prod.fst).Nodup) : ((mapInsert m k v).map Prod.fst).Nodup := by
  induction m with
  | nil => simp [mapInsert]
  | cons p rest ih =>
      obtain ⟨k', v'⟩ := p
      simp only [List.map_cons, List.nodup_cons] at h
      by_cases hk : k' = k
      · subst hk
        simpa [mapInsert, List.nodup_cons] using h
      · simp only [mapInsert, if_neg hk, List.map_cons, List.nodup_cons]
        refine ⟨fun hmem => ?_, ih h.2⟩
        rcases mapInsert_keys_mem rest k v k' hmem with h' | h'
        · exact h.1 h'
        · exact hk h'

namespace Manager

/-- A construction failure leaves the accumulator untouched. -/
@[simp] theorem processServer_constructFail (m : ManagerState) (cl : List String)
    (n : String) (msg : String) :
    processServer m cl n (.constructFail msg) = (m, cl) := rfl

/-- An initialize failure only records the closed connection. -/
@[simp] theorem processServer_initFail (m : ManagerState) (cl : List String)
    (n : String) (msg : String) :
    processServer m cl n (.initFail msg) = (m, cl ++ [n]) := rfl

/-- A discovery failure only records the closed connection. -/
@[simp] theorem processServer_listFail (m : ManagerState) (cl : List String)
    (n : String) (msg : String) :
    processServer m cl n (.listFail msg) = (m, cl ++ [n]) := rfl

/-- A ready server is registered and its tools merged. -/
@[simp] theorem processServer_ready (m : ManagerState) (cl : List String)
    (n : String) (c : ClientModel) (tools : List MCPTool) :
    processServer m cl n (.ready c tools) =
      (⟨mapInsert m.clients n c, insertTools c tools m.toolToClient⟩, cl) := rfl

/-- The two transport branches of the loading loop collapse into one guard:
the pipeline runs exactly for a supported transport type. -/
theorem loadStep_eq (acc : ManagerState × List String) (n : String)
    (cfg : MCPServerConfig) (oc : StageOutcome) :
    loadStep acc (n, cfg, oc) =
      if supported cfg then processServer acc.1 acc.2 n oc else acc := by
  simp only [loadStep, supported]
  by_cases h1 : cfg.IsStdio
  · simp [h1]
  · by_cases h2 : cfg.IsSSE
    · simp [h1, h2]
    · by_cases h3 : cfg.IsHTTP
      · simp [h1, h2, h3]
      · simp [h1, h2, h3]

/-- Unfolding one tool insertion of the routing-table merge. -/
theorem insertTools_cons (c : ClientModel) (tool : MCPTool) (rest : List MCPTool)
    (t0 : List (String × ClientModel)) :
    insertTools c (tool :: rest) t0 = insertTools c rest (mapInsert t0 tool.name c) := rfl

/-- Where a routing entry after a merge comes from: it was already there, or
it names one of the merged tools and points at the merged client. -/
theorem insertTools_lookup_src {c : ClientModel} (tools : List MCPTool)
    (t0 : List (String × ClientModel)) (t : String) (c' : ClientModel)
    (h : mapLookup (insertTools c tools t0) t = some c') :
    mapLookup t0 t = some c' ∨ (c' = c ∧ t ∈ tools.map MCPTool.name) := by
  induction tools generalizing t0 with
  | nil => exact Or.inl h
  | cons tool rest ih =>
      rw [insertTools_cons] at h
      rcases ih _ h with h' | ⟨heq, hm⟩
      · rw [mapLookup_insert] at h'
        by_cases ht : t = tool.name
        · rw [if_pos ht] at h'
          injection h' with h'
          exact Or.inr ⟨h'.symm, by simp [ht]⟩
        · rw [if_neg ht] at h'
          exact Or.inl h'
      · exact Or.inr ⟨heq, by simp [hm]⟩

/-- A routing entry pointing at the merged client survives the merge. -/
theorem insertTools_lookup_pres {c : ClientModel} (tools : List MCPTool)
    (t0 : List (String × ClientModel)) (t : String)
    (h : mapLookup t0 t = some c) :
    mapLookup (insertTools c tools t0) t = some c := by
  induction tools generalizing t0 with
  | nil => exact h
  | cons tool rest ih =>
      rw [insertTools_cons]
      apply ih
      rw [mapLookup_insert]
      by_cases ht : t = tool.name
      · rw [if_pos ht]
      · rw [if_neg ht]; exact h

/-- Every merged tool name routes to the merged client afterwards. -/
theorem insertTools_lookup_mem {c : ClientModel} (tools : List MCPTool)
    (t0 : List (String × ClientModel)) (t : String)
    (h : t ∈ tools.map MCPTool.name) :
    mapLookup (insertTools c tools t0) t = some c := by
  induction tools generalizing t0 with
  | nil => simp at h
  | cons tool rest ih =>
      rw [insertTools_cons]
      by_cases ht : t ∈ rest.map MCPTool.name
      · exact ih _ ht
      · have hname : t = tool.name := by
          simp only [List.map_cons, List.mem_cons] at h
          tauto
        apply insertTools_lookup_pres
        rw [mapLookup_insert, if_pos hname]

/-- A name outside the merged tools keeps its previous routing entry. -/
theorem insertTools_lookup_not_mem {c : ClientModel} (tools : List MCPTool)
    (t0 : List (String × ClientModel)) (t : String)
    (h : t ∉ tools.map MCPTool.name) :
    mapLookup (insertTools c tools t0) t = mapLookup t0 t := by
  induction tools generalizing t0 with
  | nil => rfl
  | cons tool rest ih =>
      have h1 : t ≠ tool.name := fun e => h (by simp [e])
      have h2 : t ∉ rest.map MCPTool.name := fun e => h (by simp [e])
      rw [insertTools_cons, ih _ h2, mapLookup_insert, if_neg h1]

/-- The routing-table merge keeps the keys without duplicates. -/
theorem insertTools_keys_nodup {c : ClientModel} (tools : List MCPTool)
    (t0 : List (String × ClientModel))
    (h : (t0.map Prod.fst).Nodup) :
    ((insertTools c tools t0).map Prod.fst).Nodup := by
  induction tools generalizing t0 with
  | nil => exact h
  | cons tool rest ih =>
      rw [insertTools_cons]
      exact ih _ (mapInsert_keys_nodup _ _ _ h)

end Manager

end Bitca

namespace Bitca

namespace Manager

/-- The manager state a loading step produces does not depend on the closed
list accumulated so far. -/
theorem loadStep_fst_closed_indep (m : ManagerState) (cl cl' : List String)
    (e : ServerEntry) : (loadStep (m, cl) e).1 = (loadStep (m, cl') e).1 := by
  rcases e with ⟨n, cfg, oc⟩
  rw [loadStep_eq, loadStep_eq]
  by_cases hs : supported cfg = true
  · rw [if_pos hs, if_pos hs]
    cases oc <;> rfl
  · rw [if_neg hs, if_neg hs]

/-- The manager state the whole loading loop produces does not depend on the
closed list accumulated so far. -/
theorem foldl_fst_closed_indep :
    ∀ (specs : List ServerEntry) (m : ManagerState) (cl cl' : List String),
      (specs.foldl loadStep (m, cl)).1 = (specs.foldl loadStep (m, cl')).1 := by
  intro specs
  induction specs with
  | nil => intro m cl cl'; rfl
  | cons e rest ih =>
      intro m cl cl'
      simp only [List.foldl_cons]
      have h1 := loadStep_fst_closed_indep m cl cl' e
      calc (rest.foldl loadStep (loadStep (m, cl) e)).1
          = (rest.foldl loadStep ((loadStep (m, cl) e).1, (loadStep (m, cl) e).2)).1 := rfl
        _ = (rest.foldl loadStep ((loadStep (m, cl') e).1, (loadStep (m, cl) e).2)).1 := by
              rw [h1]
        _ = (rest.foldl loadStep ((loadStep (m, cl') e).1, (loadStep (m, cl') e).2)).1 :=
              ih _ _ _
        _ = (rest.foldl loadStep (loadStep (m, cl') e)).1 := rfl

/-- The closed list the loading loop produces: exactly the names of the
supported servers failing at initialize or at discovery, in order. -/
theorem foldl_closed :
    ∀ (specs : List ServerEntry) (m : ManagerState) (cl : List String),
      (specs.foldl loadStep (m, cl)).2 = cl ++ specs.filterMap closedName := by
  intro specs
  induction specs with
  | nil => intro m cl; simp
  | cons e rest ih =>
      intro m cl
      rcases e with ⟨n, cfg, oc⟩
      simp only [List.foldl_cons]
      by_cases hs : supported cfg = true
      · rw [loadStep_eq, if_pos hs]
        cases oc with
        | constructFail msg =>
            rw [processServer_constructFail, ih]
            simp [List.filterMap_cons, closedName]
        | initFail msg =>
            rw [processServer_initFail, ih]
            simp [List.filterMap_cons, closedName, hs]
        | listFail msg =>
            rw [processServer_listFail, ih]
            simp [List.filterMap_cons, closedName, hs]
        | ready c tools =>
            rw [processServer_ready, ih]
            simp [List.filterMap_cons, closedName]
      · rw [loadStep_eq, if_neg hs]
        rw [ih]
        cases oc <;> simp [List.filterMap_cons, closedName, hs]

/-- The client set the loading loop produces: exactly the ready supported
servers, appended in processing order (server names being unique keys). -/
theorem foldl_clients :
    ∀ (specs : List ServerEntry) (m : ManagerState) (cl : List String),
      (∀ e ∈ specs, mapLookup m.clients e.1 = none) →
      (specs.map (fun e => e.1)).Nodup →
      (specs.foldl loadStep (m, cl)).1.clients =
        m.clients ++ specs.filterMap readyEntry := by
  intro specs
  induction specs with
  | nil => intro m cl _ _; simp
  | cons e rest ih =>
      intro m cl hfresh hnd
      rcases e with ⟨n, cfg, oc⟩
      simp only [List.map_cons, List.nodup_cons] at hnd
      obtain ⟨hn, hnd'⟩ := hnd
      have hfr : mapLookup m.clients n = none := hfresh (n, cfg, oc) (by simp)
      have hfr' : ∀ e' ∈ rest, mapLookup m.clients e'.1 = none :=
        fun e' he' => hfresh e' (List.mem_cons_of_mem _ he')
      simp only [List.foldl_cons]
      by_cases hs : supported cfg = true
      · rw [loadStep_eq, if_pos hs]
        cases oc with
        | ready c tools =>
            have hf2 : ∀ e' ∈ rest,
                mapLookup (⟨mapInsert m.clients n c,
                  insertTools c tools m.toolToClient⟩ : ManagerState).clients e'.1 = none := by
              intro e' he'
              show mapLookup (mapInsert m.clients n c) e'.1 = none
              rw [mapLookup_insert]
              have hne : e'.1 ≠ n := fun hcontra =>
                hn (hcontra ▸ List.mem_map_of_mem (fun e => e.1) he')
              rw [if_neg hne]
              exact hfr' e' he'
            rw [processServer_ready, ih _ cl hf2 hnd']
            show mapInsert m.clients n c ++ _ = _
            rw [mapInsert_of_lookup_none _ _ _ hfr]
            simp [List.filterMap_cons, readyEntry, hs]
        | constructFail msg =>
            rw [processServer_constructFail, ih m cl hfr' hnd']
            simp [List.filterMap_cons, readyEntry]
        | initFail msg =>
            rw [processServer_initFail, ih m _ hfr' hnd']
            simp [List.filterMap_cons, readyEntry]
        | listFail msg =>
            rw [processServer_listFail, ih m _ hfr' hnd']
            simp [List.filterMap_cons, readyEntry]
      · rw [loadStep_eq, if_neg hs]
        rw [ih m cl hfr' hnd']
        cases oc <;> simp [List.filterMap_cons, readyEntry, hs]

/-- Where a routing entry after the loading loop comes from: it was in the
initial table, or a supported ready server in the list exposes that tool. -/
theorem foldl_route_src :
    ∀ (specs : List ServerEntry) (m : ManagerState) (cl : List String) (t : String)
      (c : ClientModel),
      mapLookup ((specs.foldl loadStep (m, cl)).1.toolToClient) t = some c →
      mapLookup m.toolToClient t = some c ∨
        ∃ n cfg tools, (n, cfg, StageOutcome.ready c tools) ∈ specs ∧
          supported cfg = true ∧ t ∈ tools.map MCPTool.name := by
  intro specs
  induction specs with
  | nil => intro m cl t c h; exact Or.inl h
  | cons e rest ih =>
      intro m cl t c h
      rcases e with ⟨n, cfg, oc⟩
      simp only [List.foldl_cons] at h
      by_cases hs : supported cfg = true
      · rw [loadStep_eq, if_pos hs] at h
        cases oc with
        | ready c0 tools =>
            rw [processServer_ready] at h
            rcases ih _ _ _ _ h with h' | ⟨n', cfg', tools', hmem, hsup, ht⟩
            · rcases insertTools_lookup_src tools _ t c h' with h2 | ⟨heq, hm⟩
              · exact Or.inl h2
              · subst heq
                exact Or.inr ⟨n, cfg, tools, List.mem_cons_self _ _, hs, hm⟩
            · exact Or.inr ⟨n', cfg', tools', List.mem_cons_of_mem _ hmem, hsup, ht⟩
        | constructFail msg =>
            rw [processServer_constructFail] at h
            rcases ih _ _ _ _ h with h' | ⟨n', cfg', tools', hmem, hsup, ht⟩
            · exact Or.inl h'
            · exact Or.inr ⟨n', cfg', tools', List.mem_cons_of_mem _ hmem, hsup, ht⟩
        | initFail msg =>
            rw [processServer_initFail] at h
            rcases ih _ _ _ _ h with h' | ⟨n', cfg', tools', hmem, hsup, ht⟩
            · exact Or.inl h'
            · exact Or.inr ⟨n', cfg', tools', List.mem_cons_of_mem _ hmem, hsup, ht⟩
        | listFail msg =>
            rw [processServer_listFail] at h
            rcases ih _ _ _ _ h with h' | ⟨n', cfg', tools', hmem, hsup, ht⟩
            · exact Or.inl h'
            · exact Or.inr ⟨n', cfg', tools', List.mem_cons_of_mem _ hmem, hsup, ht⟩
      · rw [loadStep_eq, if_neg hs] at h
        rcases ih _ _ _ _ h with h' | ⟨n', cfg', tools', hmem, hsup, ht⟩
        · exact Or.inl h'
        · exact Or.inr ⟨n', cfg', tools', List.mem_cons_of_mem _ hmem, hsup, ht⟩

/-- The loading loop keeps the routing table's keys without duplicates. -/
theorem foldl_route_keys_nodup :
    ∀ (specs : List ServerEntry) (m : ManagerState) (cl : List String),
      (m.toolToClient.map Prod.fst).Nodup →
      (((specs.foldl loadStep (m, cl)).1.toolToClient).map Prod.fst).Nodup := by
  intro specs
  induction specs with
  | nil => intro m cl h; exact h
  | cons e rest ih =>
      intro m cl h
      rcases e with ⟨n, cfg, oc⟩
      simp only [List.foldl_cons]
      by_cases hs : supported cfg = true
      · rw [loadStep_eq, if_pos hs]
        cases oc with
        | ready c tools =>
            rw [processServer_ready]
            exact ih _ _ (insertTools_keys_nodup tools _ h)
        | constructFail msg => rw [processServer_constructFail]; exact ih _ _ h
        | initFail msg => rw [processServer_initFail]; exact ih _ _ h
        | listFail msg => rw [processServer_listFail]; exact ih _ _ h
      · rw [loadStep_eq, if_neg hs]; exact ih _ _ h

/-- When no ready server in the list exposes a tool name, loading the list
leaves that name's routing entry untouched. -/
theorem foldl_route_pres :
    ∀ (specs : List ServerEntry) (m : ManagerState) (cl : List String) (t : String),
      (∀ e ∈ specs, ∀ c tools, e.2.2 = StageOutcome.ready c tools →
        t ∉ tools.map MCPTool.name) →
      mapLookup ((specs.foldl loadStep (m, cl)).1.toolToClient) t =
        mapLookup m.toolToClient t := by
  intro specs
  induction specs with
  | nil => intro m cl t _; rfl
  | cons e rest ih =>
      intro m cl t hnot
      rcases e with ⟨n, cfg, oc⟩
      simp only [List.foldl_cons]
      have hrest : ∀ e ∈ rest, ∀ c tools, e.2.2 = StageOutcome.ready c tools →
          t ∉ tools.map MCPTool.name :=
        fun e he => hnot e (List.mem_cons_of_mem _ he)
      by_cases hs : supported cfg = true
      · rw [loadStep_eq, if_pos hs]
        cases oc with
        | ready c tools =>
            have hm : t ∉ tools.map MCPTool.name :=
              hnot (n, cfg, .ready c tools) (List.mem_cons_self _ _) c tools rfl
            rw [processServer_ready, ih _ _ _ hrest]
            show mapLookup (insertTools c tools m.toolToClient) t = _
            rw [insertTools_lookup_not_mem tools _ t hm]
        | constructFail msg => rw [processServer_constructFail]; exact ih _ _ _ hrest
        | initFail msg => rw [processServer_initFail]; exact ih _ _ _ hrest
        | listFail msg => rw [processServer_listFail]; exact ih _ _ _ hrest
      · rw [loadStep_eq, if_neg hs]; exact ih _ _ _ hrest

/-- A server contributing no client-set entry leaves the manager state of a
loading step untouched. -/
theorem loadStep_fst_of_not_ready (acc : ManagerState × List String)
    (e : ServerEntry) (h : readyEntry e = none) : (loadStep acc e).1 = acc.1 := by
  rcases e with ⟨n, cfg, oc⟩
  rw [loadStep_eq]
  by_cases hs : supported cfg = true
  · rw [if_pos hs]
    cases oc with
    | ready c tools => simp [readyEntry, hs] at h
    | constructFail msg => rfl
    | initFail msg => rfl
    | listFail msg => rfl
  · rw [if_neg hs]

/-- After loading a list ending in a ready supported server exposing a tool,
followed only by servers that do not expose it, the tool routes to that
server's client. -/
theorem loadServers_lookup_last (front post : List ServerEntry) (nb : String)
    (cfb : MCPServerConfig) (cb : ClientModel) (tb : List MCPTool) (t : String)
    (hsb : supported cfb = true) (htb : t ∈ tb.map MCPTool.name)
    (hpost : ∀ e ∈ post, ∀ c tools, e.2.2 = StageOutcome.ready c tools →
      t ∉ tools.map MCPTool.name) :
    mapLookup ((loadServers
        (front ++ (nb, cfb, .ready cb tb) :: post)).1.toolToClient) t = some cb := by
  have h1 : loadServers (front ++ (nb, cfb, StageOutcome.ready cb tb) :: post) =
      List.foldl loadStep
        (loadStep (List.foldl loadStep (⟨⟨[], []⟩, []⟩) front)
          (nb, cfb, StageOutcome.ready cb tb)) post := by
    simp [loadServers, List.foldl_append]
  rw [h1]
  set acc := List.foldl loadStep (⟨⟨[], []⟩, []⟩) front with hacc
  have hstep : loadStep acc (nb, cfb, StageOutcome.ready cb tb) =
      (⟨mapInsert acc.1.clients nb cb, insertTools cb tb acc.1.toolToClient⟩, acc.2) := by
    rw [loadStep_eq, if_pos hsb, processServer_ready]
  rw [hstep, foldl_route_pres post _ _ t hpost]
  exact insertTools_lookup_mem tb _ t htb

end Manager

/-- Counting the hits of a partial map over a list. -/
theorem length_filterMap_eq_countP {α β : Type} (f : α → Option β) (l : List α) :
    (l.filterMap f).length = l.countP (fun a => (f a).isSome) := by
  induction l with
  | nil => rfl
  | cons a l ih =>
      rw [List.filterMap_cons, List.countP_cons]
      cases hf : f a
      · simp [hf, ih]
      · simp [hf, ih]

end Bitca

namespace Bitca

/-- C1: for every configuration of servers with unique names (all of a
supported or unsupported transport), LoadFromConfig returns no error; the
registered client set is exactly the ready (supported) servers — so with k
of N servers failing at construction, initialize, or discovery, exactly N−k
connections are registered; the routing table contains only tools discovered
from those survivors (failing servers contribute no routing entries); every
supported server failing at initialize or discovery has its connection
closed (a construction failure leaves no connection to close); and removing
a non-surviving server from the list does not change the resulting manager
state, so one server's failure never stops the processing of the rest. -/
theorem claim_C1 (specs : List ServerEntry)
    (hnd : (specs.map (fun e => e.1)).Nodup) :
    Manager.LoadFromConfig (.ok specs) = .ok (Manager.loadServers specs) ∧
    (Manager.loadServers specs).1.clients = specs.filterMap Manager.readyEntry ∧
    (Manager.loadServers specs).1.clients.length =
      specs.countP (fun e => (Manager.readyEntry e).isSome) ∧
    (∀ t c, mapLookup (Manager.loadServers specs).1.toolToClient t = some c →
      ∃ n cfg tools, (n, cfg, StageOutcome.ready c tools) ∈ specs ∧
        Manager.supported cfg = true ∧ t ∈ tools.map MCPTool.name) ∧
    (Manager.loadServers specs).2 = specs.filterMap Manager.closedName ∧
    (∀ (pre post : List ServerEntry) (e : ServerEntry), specs = pre ++ e :: post →
      Manager.readyEntry e = none →
      (Manager.loadServers specs).1 = (Manager.loadServers (pre ++ post)).1) := by
  have hcl : (Manager.loadServers specs).1.clients =
      specs.filterMap Manager.readyEntry := by
    have h := Manager.foldl_clients specs ⟨[], []⟩ [] (fun e _ => rfl) hnd
    simpa [Manager.loadServers] using h
  refine ⟨rfl, hcl, ?_, ?_, ?_, ?_⟩
  · rw [hcl, length_filterMap_eq_countP]
  · intro t c h
    have h2 := Manager.foldl_route_src specs ⟨[], []⟩ [] t c
      (by simpa [Manager.loadServers] using h)
    rcases h2 with h' | h3
    · simp [mapLookup] at h'
    · exact h3
  · have h := Manager.foldl_closed specs ⟨[], []⟩ []
    simpa [Manager.loadServers] using h
  · intro pre post e hspec hne
    subst hspec
    have hL : (Manager.loadServers (pre ++ e :: post)).1 =
        (List.foldl Manager.loadStep
          (Manager.loadStep (List.foldl Manager.loadStep (⟨⟨[], []⟩, []⟩) pre) e) post).1 := by
      simp [Manager.loadServers, List.foldl_append]
    have hR : (Manager.loadServers (pre ++ post)).1 =
        (List.foldl Manager.loadStep
          (List.foldl Manager.loadStep (⟨⟨[], []⟩, []⟩) pre) post).1 := by
      simp [Manager.loadServers, List.foldl_append]
    rw [hL, hR]
    set acc := List.foldl Manager.loadStep (⟨⟨[], []⟩, []⟩) pre with hacc
    have h1 : (Manager.loadStep acc e).1 = acc.1 :=
      Manager.loadStep_fst_of_not_ready acc e hne
    calc (List.foldl Manager.loadStep (Manager.loadStep acc e) post).1
        = (List.foldl Manager.loadStep
            ((Manager.loadStep acc e).1, (Manager.loadStep acc e).2) post).1 := rfl
      _ = (List.foldl Manager.loadStep (acc.1, (Manager.loadStep acc e).2) post).1 := by
            rw [h1]
      _ = (List.foldl Manager.loadStep (acc.1, acc.2) post).1 :=
            Manager.foldl_fst_closed_indep post acc.1 _ _
      _ = (List.foldl Manager.loadStep acc post).1 := rfl

/-- Witness for C1: of three configured servers — one ready, one failing
initialize, one failing construction — exactly the ready one is registered
and exactly the initialize failure is closed. -/
theorem claim_C1_witness :
    (Manager.loadServers demoSpecs).1.clients = demoSpecs.filterMap Manager.readyEntry ∧
    (Manager.loadServers demoSpecs).2 = demoSpecs.filterMap Manager.closedName :=
  ⟨(claim_C1 demoSpecs (by decide)).2.1,
    (claim_C1 demoSpecs (by decide)).2.2.2.2.1⟩

/-- C2: when two servers that both complete discovery expose a tool of the
same name (and no later server exposes it), the routing table holds exactly
one mapping for that name — the later-processed server's client
(last-writer-wins) — and ExecuteTool on that name delegates to that later
client. -/
theorem claim_C2 (pre mid post : List ServerEntry) (na nb : String)
    (cfa cfb : MCPServerConfig) (ca cb : ClientModel) (ta tb : List MCPTool)
    (t : String) (args : Args)
    (hsa : Manager.supported cfa = true)
    (hsb : Manager.supported cfb = true)
    (hta : t ∈ ta.map MCPTool.name)
    (htb : t ∈ tb.map MCPTool.name)
    (hpost : ∀ e ∈ post, ∀ c tools, e.2.2 = StageOutcome.ready c tools →
      t ∉ tools.map MCPTool.name) :
    mapLookup (Manager.loadServers (pre ++ (na, cfa, .ready ca ta) :: mid ++
        (nb, cfb, .ready cb tb) :: post)).1.toolToClient t = some cb ∧
    ((Manager.loadServers (pre ++ (na, cfa, .ready ca ta) :: mid ++
        (nb, cfb, .ready cb tb) :: post)).1.toolToClient.map Prod.fst).Nodup ∧
    Manager.ExecuteTool (Manager.loadServers (pre ++ (na, cfa, .ready ca ta) :: mid ++
        (nb, cfb, .ready cb tb) :: post)).1 t args =
      (cb.callToolFn t args, [(cb.name, t, args)]) := by
  have hassoc : pre ++ (na, cfa, StageOutcome.ready ca ta) :: mid ++
      (nb, cfb, StageOutcome.ready cb tb) :: post =
      (pre ++ (na, cfa, StageOutcome.ready ca ta) :: mid) ++
        (nb, cfb, StageOutcome.ready cb tb) :: post := by
    rw [List.append_assoc]
  rw [hassoc]
  have hlook := Manager.loadServers_lookup_last
    (pre ++ (na, cfa, .ready ca ta) :: mid) post nb cfb cb tb t hsb htb hpost
  refine ⟨hlook, ?_, ?_⟩
  · exact Manager.foldl_route_keys_nodup _ ⟨[], []⟩ [] (by simp)
  · simp only [Manager.ExecuteTool, hlook]

/-- Witness for C2: two ready servers exposing the tool name dup; the
routing table retains the second server's client and ExecuteTool delegates
to it. -/
theorem claim_C2_witness :
    mapLookup (Manager.loadServers
        [("a", demoCfg, .ready demoClient [⟨"dup", "", ""⟩]),
          ("b", demoCfg, .ready demoClientB [⟨"dup", "", ""⟩])]).1.toolToClient "dup" =
      some demoClientB ∧
    Manager.ExecuteTool (Manager.loadServers
        [("a", demoCfg, .ready demoClient [⟨"dup", "", ""⟩]),
          ("b", demoCfg, .ready demoClientB [⟨"dup", "", ""⟩])]).1 "dup" [] =
      (demoClientB.callToolFn "dup" [], [("srvB", "dup", [])]) :=
  ⟨(claim_C2 [] [] [] "a" "b" demoCfg demoCfg demoClient demoClientB
      [⟨"dup", "", ""⟩] [⟨"dup", "", ""⟩] "dup" []
      (by decide) (by decide) (by decide) (by decide) (by simp)).1,
    (claim_C2 [] [] [] "a" "b" demoCfg demoCfg demoClient demoClientB
      [⟨"dup", "", ""⟩] [⟨"dup", "", ""⟩] "dup" []
      (by decide) (by decide) (by decide) (by decide) (by simp)).2.2⟩

/-- C3: ExecuteTool on a name absent from the routing table fails
immediately with the unknown-tool error and delegates to no connection;
on a present name it returns exactly the owning connection's CallTool
result, performing exactly that one delegation. -/
theorem claim_C3 (m : ManagerState) (name : String) (args : Args) :
    (mapLookup m.toolToClient name = none →
      Manager.ExecuteTool m name args = (.error ("unknown MCP tool: " ++ name), [])) ∧
    (∀ c, mapLookup m.toolToClient name = some c →
      Manager.ExecuteTool m name args =
        (c.callToolFn name args, [(c.name, name, args)])) := by
  constructor
  · intro h
    simp only [Manager.ExecuteTool, h]
  · intro c h
    simp only [Manager.ExecuteTool, h]

/-- Witness for C3: on a one-tool manager, an unknown name fails with no
delegation and the known name delegates once to its owner. -/
theorem claim_C3_witness :
    Manager.ExecuteTool demoManager "nope" [] =
      (.error ("unknown MCP tool: " ++ "nope"), []) ∧
    Manager.ExecuteTool demoManager "echo" [] =
      (demoClient.callToolFn "echo" [], [("srv", "echo", [])]) :=
  ⟨(claim_C3 demoManager "nope" []).1 rfl,
    (claim_C3 demoManager "echo" []).2 demoClient rfl⟩

/-- C9: LoadMCPConfig on a nonexistent path returns an empty, non-nil server
map and no error; on an existing file whose contents are malformed it
returns an error and no config value. -/
theorem claim_C9 :
    LoadMCPConfig .notExist = .ok ⟨some []⟩ ∧
    (∀ msg, LoadMCPConfig (.content (.malformed msg)) = .error msg) :=
  ⟨rfl, fun _ => rfl⟩

/-- Witness for C9: a concrete malformed document is rejected. -/
theorem claim_C9_witness :
    LoadMCPConfig (.content (.malformed "unexpected end of JSON input")) =
      .error "unexpected end of JSON input" :=
  claim_C9.2 "unexpected end of JSON input"

end Bitca
